import Mathlib

/-!
Verification of the chunked dataset writer and the double-buffered
prefetching reader of `utils.py` (classes `CachedImageDatasetWriter`,
`CachedImageDataset`, `ImageChunk`).

The embedding is shallow: tensors become lists, `torch.save`/`torch.load`
of a tensor is modelled as storing the value itself (the binary layout is
out of scope), the directory walk becomes an explicit list of entries, and
the background loader process becomes an explicit state transformation
whose effects are visible at the join point (the load and the drain touch
disjoint buffer slots, so sequentialising them preserves the final state).
-/

namespace PGM

/-- Line 181 of `utils.py`:
`self.chunk_sizes = [chunk_size] * (self.n // chunk_size) + [self.n % chunk_size]`. -/
def chunk_sizes (n c : Nat) : List Nat :=
  List.replicate (n / c) c ++ [n % c]

lemma sum_replicate_nat (k x : Nat) : (List.replicate k x).sum = k * x := by
  induction k with
  | zero => simp
  | succ k ih => simp [List.replicate_succ, ih, Nat.succ_mul, Nat.add_comm]

lemma getD_append_lt (l m : List α) (d : α) (i : Nat) (h : i < l.length) :
    (l ++ m).getD i d = l.getD i d := by
  induction l generalizing i with
  | nil => simp at h
  | cons a l ih =>
    cases i with
    | zero => rfl
    | succ i => simpa using ih i (by simpa using h)

lemma getD_replicate (k : Nat) (x d : α) (i : Nat) (h : i < k) :
    (List.replicate k x).getD i d = x := by
  induction k generalizing i with
  | zero => omega
  | succ k ih =>
    cases i with
    | zero => rfl
    | succ i => simpa [List.replicate_succ] using ih i (by omega)

lemma chunk_sizes_length (n c : Nat) : (chunk_sizes n c).length = n / c + 1 := by
  simp [chunk_sizes]

lemma getD_replicate_append_last (k : Nat) (x r d : α) :
    (List.replicate k x ++ [r]).getD k d = r := by
  induction k with
  | zero => rfl
  | succ k ih => simpa [List.replicate_succ] using ih

/-- Claim C4: for every valid pair with a positive chunk capacity, the
chunk-size sequence computed by `CachedImageDatasetWriter.__init__` sums to
the declared sample count, and every non-final element equals the chunk
capacity. -/
theorem chunk_sizes_partition (n c : Nat) (hc : 0 < c) :
    (chunk_sizes n c).sum = n ∧
    ∀ i, i < (chunk_sizes n c).length - 1 → (chunk_sizes n c).getD i 0 = c := by
  constructor
  · have h := Nat.div_add_mod n c
    rw [Nat.mul_comm] at h
    simp [chunk_sizes, sum_replicate_nat]
    omega
  · intro i hi
    rw [chunk_sizes_length] at hi
    rw [chunk_sizes, getD_append_lt _ _ _ _ (by simpa using by omega),
      getD_replicate _ _ _ _ (by omega)]

theorem chunk_sizes_partition_witness :
    0 < 4 ∧ (chunk_sizes 10 4).sum = 10 ∧ (chunk_sizes 10 4).getD 1 0 = 4 :=
  ⟨by decide, (chunk_sizes_partition 10 4 (by decide)).1,
    (chunk_sizes_partition 10 4 (by decide)).2 1 (by decide)⟩

/-- Claim C5: the writer computes exactly `[c]` repeated `n / c` times with
`n % c` appended, so the list has length `n / c + 1` in all cases and ends in
a zero-size chunk whenever `c` divides `n`. -/
theorem chunk_sizes_shape (n c : Nat) (hc : 0 < c) :
    chunk_sizes n c = List.replicate (n / c) c ++ [n % c] ∧
    (chunk_sizes n c).length = n / c + 1 ∧
    (c ∣ n → (chunk_sizes n c).getD ((chunk_sizes n c).length - 1) 0 = 0) := by
  refine ⟨rfl, chunk_sizes_length n c, fun hdvd => ?_⟩
  obtain ⟨k, rfl⟩ := hdvd
  have hmod : c * k % c = 0 := Nat.mul_mod_right c k
  rw [chunk_sizes_length, Nat.add_sub_cancel, chunk_sizes,
    getD_replicate_append_last]
  exact hmod

theorem chunk_sizes_shape_witness :
    0 < 4 ∧ chunk_sizes 8 4 = List.replicate 2 4 ++ [0] ∧
    (chunk_sizes 8 4).length = 3 ∧
    (chunk_sizes 8 4).getD ((chunk_sizes 8 4).length - 1) 0 = 0 :=
  ⟨by decide, (chunk_sizes_shape 8 4 (by decide)).1,
    (chunk_sizes_shape 8 4 (by decide)).2.1,
    (chunk_sizes_shape 8 4 (by decide)).2.2 (by decide)⟩

/-- One entry of `os.listdir(self.root_path)` (line 192): either a class
subdirectory together with the transform results of the files that
`os.walk` finds under it, in walk order, or a non-directory entry, which
the `os.path.isdir` test at line 195 makes the writer skip. A file whose
`Image.open` or `xform(img)` call raises is an `Except.error`. -/
inductive Entry (α : Type) where
  | dir (dname : String) (files : List (Except Unit α))
  | nondir (dname : String)

/-- The writer loop of `CachedImageDatasetWriter.save` linearised into
tokens: entering a subdirectory (line 196), processing one file
(lines 199 to 216), and leaving a subdirectory (the `self.label_id += 1`
at line 217). -/
inductive Tok (α : Type) where
  | openDir (dname : String)
  | file (r : Except Unit α)
  | closeDir

def Entry.toks : Entry α → List (Tok α)
  | .dir dname fs => Tok.openDir dname :: (fs.map Tok.file ++ [Tok.closeDir])
  | .nondir _ => []

def toksOf (es : List (Entry α)) : List (Tok α) := (es.map Entry.toks).flatten

/-- The mutable fields of `CachedImageDatasetWriter` together with the
open `ImageChunk` (`chunk.data` and `chunk.labels` are the samples added
so far: `cursor` always equals their length, since `add` writes at
position `cursor`). `written` holds the chunk buffers flushed by the two
`torch.save` calls at lines 207 to 214. -/
structure WState (α : Type) where
  chunk_idx : Nat
  cursor : Nat
  cur_size : Nat
  cur_data : List α
  cur_labels : List Nat
  written : List (List α × List Nat)
  labels_lookup : List (Nat × String)
  label_id : Nat
  global_cursor : Nat

/-- Control state of the `save` loop: still running, stopped by the
`except IndexError: pass` at lines 218 and 219, or aborted by an exception
that is not an `IndexError` (an unreadable or untransformable file) and
therefore escapes `save` before the metadata writes at lines 221 to 225. -/
inductive WST (α : Type) where
  | run (s : WState α)
  | idxStop (s : WState α)
  | xstop (s : WState α)

def WST.st : WST α → WState α
  | .run s => s | .idxStop s => s | .xstop s => s

def WST.isRun : WST α → Bool
  | .run _ => true | _ => false

def WST.isIdxStop : WST α → Bool
  | .idxStop _ => true | _ => false

/-- Lines 205 to 216: after `chunk.add` has succeeded, compare the cursor
with `self.chunk_sizes[self.chunk_idx]`, and on a full chunk flush it,
advance `self.chunk_idx` and allocate the next `ImageChunk` from
`self.chunk_sizes[self.chunk_idx]`; that list access raises `IndexError`
when the index has run past the end. -/
def stepAdded (cs : List Nat) (s : WState α) : WST α :=
  match cs.get? s.chunk_idx with
  | none => .idxStop s
  | some sz =>
    if s.cursor = sz then
      match cs.get? (s.chunk_idx + 1) with
      | none => .idxStop { s with
          cursor := 0
          written := s.written ++ [(s.cur_data, s.cur_labels)]
          chunk_idx := s.chunk_idx + 1
          cur_data := []
          cur_labels := [] }
      | some sz2 => .run { s with
          cursor := 0
          written := s.written ++ [(s.cur_data, s.cur_labels)]
          chunk_idx := s.chunk_idx + 1
          cur_data := []
          cur_labels := []
          cur_size := sz2 }
    else .run s

/-- One token of the `save` loop body. A directory entry records its name
in `self.labels_lookup` under the current `self.label_id` (line 196);
`chunk.add(img, self.label_id, cursor)` raises `IndexError` when the
cursor is outside the open chunk (its tensor has first dimension
`cur_size`); a failed `Image.open`/`xform` raises an exception that is not
an `IndexError`, so it escapes the handler. The two stopped states absorb
every later token: both kinds of exception break out of all the loops. -/
def stepTok (cs : List Nat) : WST α → Tok α → WST α
  | .xstop s, _ => .xstop s
  | .idxStop s, _ => .idxStop s
  | .run s, .openDir dname =>
      .run { s with labels_lookup := s.labels_lookup ++ [(s.label_id, dname)] }
  | .run s, .closeDir => .run { s with label_id := s.label_id + 1 }
  | .run s, .file (.error _) => .xstop s
  | .run s, .file (.ok img) =>
      if s.cursor < s.cur_size then
        stepAdded cs { s with
          cur_data := s.cur_data ++ [img]
          cur_labels := s.cur_labels ++ [s.label_id]
          global_cursor := s.global_cursor + 1
          cursor := s.cursor + 1 }
      else .idxStop s

/-- The state built by `CachedImageDatasetWriter.__init__` (lines 177 to
185) together with the first `ImageChunk` allocation at line 190; the
chunk-size list is never empty, so the `headD` default is never used. -/
def initW (n c : Nat) : WState α :=
  { chunk_idx := 0
    cursor := 0
    cur_size := (chunk_sizes n c).headD 0
    cur_data := []
    cur_labels := []
    written := []
    labels_lookup := []
    label_id := 0
    global_cursor := 0 }

def saveSt (n c : Nat) (es : List (Entry α)) : WST α :=
  (toksOf es).foldl (stepTok (chunk_sizes n c)) (.run (initW n c))

/-- What `save` leaves behind: on a normal or `IndexError`-stopped run the
chunk files plus `{name}.info.dat` and `{name}.lut.dat` (lines 221 to
225), with `overflow` recording whether an `IndexError` was swallowed; on
any other exception only the chunk files flushed before the failure. -/
inductive SaveOutcome (α : Type) where
  | ok (written : List (List α × List Nat)) (lookup : List (Nat × String))
      (overflow : Bool)
  | aborted (written : List (List α × List Nat))

def save (n c : Nat) (es : List (Entry α)) : SaveOutcome α :=
  match saveSt n c es with
  | .run s => .ok s.written s.labels_lookup false
  | .idxStop s => .ok s.written s.labels_lookup true
  | .xstop s => .aborted s.written

def SaveOutcome.metaWritten : SaveOutcome α → Bool
  | .ok _ _ _ => true
  | .aborted _ => false

def SaveOutcome.overflowed : SaveOutcome α → Bool
  | .ok _ _ o => o
  | .aborted _ => false

lemma stepTok_stopped (cs : List Nat) (st : WST α) (t : Tok α)
    (h : st.isRun = false) : stepTok cs st t = st := by
  cases st with
  | run s => simp [WST.isRun] at h
  | idxStop s => rfl
  | xstop s => rfl

lemma foldl_stopped (cs : List Nat) (ts : List (Tok α)) (st : WST α)
    (h : st.isRun = false) : ts.foldl (stepTok cs) st = st := by
  induction ts with
  | nil => rfl
  | cons t ts ih => rw [List.foldl_cons, stepTok_stopped cs st t h, ih]

lemma isRun_closeDir (cs : List Nat) (st : WST α) :
    (stepTok cs st Tok.closeDir).isRun = st.isRun := by
  cases st <;> rfl

lemma toksOf_append (es1 es2 : List (Entry α)) :
    toksOf (es1 ++ es2) = toksOf es1 ++ toksOf es2 := by
  simp [toksOf]

/-- Claim C8: a file that cannot be read or transformed raises an
exception that is not an `IndexError`, so once the scan reaches it the
whole write aborts: the exception escapes `save` (no `.ok` outcome, hence
no metadata record and no label lookup are written), and the outcome is
exactly that of a source tree truncated at the failing file, so no later
file of the same directory and no later directory entry is processed. -/
theorem save_fail_fast (n c : Nat) (es1 : List (Entry α)) (dname : String)
    (fs1 fs2 : List (Except Unit α)) (es2 : List (Entry α))
    (hreach : (saveSt n c (es1 ++ [Entry.dir dname fs1])).isRun = true) :
    (save n c (es1 ++ Entry.dir dname (fs1 ++ Except.error () :: fs2) :: es2)).metaWritten
        = false ∧
    save n c (es1 ++ Entry.dir dname (fs1 ++ Except.error () :: fs2) :: es2)
      = save n c (es1 ++ [Entry.dir dname (fs1 ++ [Except.error ()])]) := by
  unfold saveSt at hreach
  have hdecomp : toksOf (es1 ++ [Entry.dir dname fs1])
      = (toksOf es1 ++ Tok.openDir dname :: fs1.map Tok.file) ++ [Tok.closeDir] := by
    simp [toksOf_append, toksOf, Entry.toks]
  rw [hdecomp, List.foldl_append, List.foldl_cons, List.foldl_nil,
    isRun_closeDir] at hreach
  set step := stepTok (α := α) (chunk_sizes n c) with hstep
  set A := toksOf es1 ++ Tok.openDir dname :: fs1.map Tok.file with hA
  cases hrun : A.foldl step (WST.run (initW n c)) with
  | idxStop s => rw [hrun] at hreach; simp [WST.isRun] at hreach
  | xstop s => rw [hrun] at hreach; simp [WST.isRun] at hreach
  | run s =>
  have herr : step (WST.run s) (Tok.file (Except.error ())) = WST.xstop s := rfl
  have hfull : saveSt n c (es1 ++ Entry.dir dname (fs1 ++ Except.error () :: fs2) :: es2)
      = WST.xstop s := by
    unfold saveSt
    have h2 : toksOf (es1 ++ Entry.dir dname (fs1 ++ Except.error () :: fs2) :: es2)
        = A ++ Tok.file (Except.error ())
            :: (fs2.map Tok.file ++ Tok.closeDir :: toksOf es2) := by
      simp [hA, toksOf, Entry.toks]
    rw [h2, List.foldl_append, ← hstep, hrun, List.foldl_cons, herr,
      foldl_stopped _ _ (WST.xstop s) rfl]
  have htrunc : saveSt n c (es1 ++ [Entry.dir dname (fs1 ++ [Except.error ()])])
      = WST.xstop s := by
    unfold saveSt
    have h3 : toksOf (es1 ++ [Entry.dir dname (fs1 ++ [Except.error ()])])
        = A ++ Tok.file (Except.error ()) :: [Tok.closeDir] := by
      simp [hA, toksOf, Entry.toks]
    rw [h3, List.foldl_append, ← hstep, hrun, List.foldl_cons, herr,
      foldl_stopped _ _ (WST.xstop s) rfl]
  constructor
  · rw [save, hfull]; rfl
  · rw [save, hfull, save, htrunc]

lemma div_mod_succ_keep (c g : Nat) (hc : 0 < c) (h : g % c + 1 < c) :
    (g + 1) / c = g / c ∧ (g + 1) % c = g % c + 1 := by
  have hd := Nat.div_add_mod g c
  exact (Nat.div_mod_unique hc).2 ⟨by omega, h⟩

lemma div_mod_succ_roll (c g : Nat) (hc : 0 < c) (h : g % c + 1 = c) :
    (g + 1) / c = g / c + 1 ∧ (g + 1) % c = 0 := by
  have hd := Nat.div_add_mod g c
  have hm : c * (g / c + 1) = c * (g / c) + c := by ring
  exact (Nat.div_mod_unique hc).2 ⟨by omega, hc⟩

lemma get?_replicate_append (k : Nat) (x r : α) (i : Nat) :
    (List.replicate k x ++ [r]).get? i
      = if i < k then some x else if i = k then some r else none := by
  induction k generalizing i with
  | zero =>
    cases i with
    | zero => rfl
    | succ i =>
      show (none : Option α) = _
      rw [if_neg (by omega), if_neg (by omega)]
  | succ k ih =>
    cases i with
    | zero =>
      rw [List.replicate_succ, List.cons_append, List.get?_cons_zero,
        if_pos (Nat.succ_pos k)]
    | succ i =>
      rw [List.replicate_succ, List.cons_append, List.get?_cons_succ, ih]
      by_cases h1 : i < k
      · rw [if_pos h1, if_pos (by omega : i + 1 < k + 1)]
      · rw [if_neg h1, if_neg (by omega : ¬ i + 1 < k + 1)]
        by_cases h2 : i = k
        · rw [if_pos h2, if_pos (by omega : i + 1 = k + 1)]
        · rw [if_neg h2, if_neg (by omega : ¬ i + 1 = k + 1)]

lemma chunk_sizes_get? (n c i : Nat) :
    (chunk_sizes n c).get? i
      = if i < n / c then some c else if i = n / c then some (n % c) else none :=
  get?_replicate_append _ _ _ _

/-- Relation between the mutable counters of a running `save` and the
number of samples added so far: the open chunk is number
`global_cursor / c`, the cursor sits at `global_cursor % c`, and the open
chunk has the declared size of that chunk. A running state can only sit at
`global_cursor = n` in the divisible case, where the zero-size trailing
chunk has just been allocated. -/
def Ctrl (n c : Nat) (s : WState α) : Prop :=
  s.global_cursor ≤ n ∧
  s.chunk_idx = s.global_cursor / c ∧
  s.cursor = s.global_cursor % c ∧
  s.cur_size = (if s.global_cursor / c < n / c then c else n % c) ∧
  (s.global_cursor = n → n % c = 0)

def GoodSt (n c : Nat) : WST α → Prop
  | .run s => Ctrl n c s
  | .idxStop s => s.global_cursor = n
  | .xstop _ => False

lemma initW_ctrl (n c : Nat) (hc : 0 < c) : Ctrl n c (initW (α := α) n c) := by
  refine ⟨Nat.zero_le n, by simp [initW], by simp [initW], ?_, ?_⟩
  · show (chunk_sizes n c).headD 0 = _
    simp only [initW, Nat.zero_div]
    cases hq : n / c with
    | zero => simp [chunk_sizes, hq]
    | succ k => simp [chunk_sizes, hq, List.replicate_succ]
  · intro h
    simp only [initW] at h
    rw [← h]
    exact Nat.zero_mod c

lemma ctrl_set_lookup (n c : Nat) (s : WState α) (L : List (Nat × String))
    (hs : Ctrl n c s) : Ctrl n c { s with labels_lookup := L } := by
  simpa [Ctrl] using hs

lemma ctrl_set_lid (n c : Nat) (s : WState α) (k : Nat)
    (hs : Ctrl n c s) : Ctrl n c { s with label_id := k } := by
  simpa [Ctrl] using hs

lemma file_ok_step (n c : Nat) (hc : 0 < c) (s : WState α) (hs : Ctrl n c s)
    (a : α) :
    GoodSt n c (stepTok (chunk_sizes n c) (.run s) (.file (.ok a))) ∧
    (stepTok (chunk_sizes n c) (.run s) (.file (.ok a))).st.global_cursor
        = min (s.global_cursor + 1) n ∧
    (s.global_cursor = n →
      (stepTok (chunk_sizes n c) (.run s) (.file (.ok a))).isIdxStop = true) := by
  obtain ⟨hle, hidx, hcur, hsz, hdv⟩ := hs
  have hqle : s.global_cursor / c ≤ n / c := Nat.div_le_div_right hle
  have h1 := Nat.div_add_mod s.global_cursor c
  have h2 := Nat.div_add_mod n c
  have hml := Nat.mod_lt s.global_cursor hc
  have hmln := Nat.mod_lt n hc
  by_cases hgn : s.global_cursor = n
  · have h0 : n % c = 0 := hdv hgn
    have hcsz : s.cur_size = 0 := by rw [hsz, hgn, if_neg (lt_irrefl _), h0]
    have hc0 : s.cursor = 0 := by rw [hcur, hgn, h0]
    have hred : stepTok (chunk_sizes n c) (.run s) (.file (.ok a))
        = WST.idxStop s := by
      simp only [stepTok]
      rw [if_neg (by omega)]
    rw [hred]
    refine ⟨hgn, ?_, fun _ => rfl⟩
    show s.global_cursor = min (s.global_cursor + 1) n
    omega
  · have hglt : s.global_cursor < n := lt_of_le_of_ne hle hgn
    have hguard : s.cursor < s.cur_size := by
      rw [hcur, hsz]
      by_cases hq : s.global_cursor / c < n / c
      · rw [if_pos hq]
        exact Nat.mod_lt _ hc
      · rw [if_neg hq]
        have hqe : s.global_cursor / c = n / c := le_antisymm hqle (not_lt.1 hq)
        have h1' := h1
        rw [hqe] at h1'
        omega
    have hred : stepTok (chunk_sizes n c) (.run s) (.file (.ok a))
        = stepAdded (chunk_sizes n c) { s with
            cur_data := s.cur_data ++ [a]
            cur_labels := s.cur_labels ++ [s.label_id]
            global_cursor := s.global_cursor + 1
            cursor := s.cursor + 1 } := by
      simp only [stepTok]
      rw [if_pos hguard]
    by_cases hq : s.global_cursor / c < n / c
    · have hszc : s.cur_size = c := by rw [hsz, if_pos hq]
      have hget : (chunk_sizes n c).get? s.chunk_idx = some c := by
        rw [hidx, chunk_sizes_get?, if_pos hq]
      by_cases hfl : s.cursor + 1 = c
      · obtain ⟨hdq, hdm⟩ := div_mod_succ_roll c s.global_cursor hc (by omega)
        by_cases hq2 : s.global_cursor / c + 1 < n / c
        · have hget2 : (chunk_sizes n c).get? (s.chunk_idx + 1) = some c := by
            rw [hidx, chunk_sizes_get?, if_pos hq2]
          have hstep : stepAdded (chunk_sizes n c) { s with
              cur_data := s.cur_data ++ [a]
              cur_labels := s.cur_labels ++ [s.label_id]
              global_cursor := s.global_cursor + 1
              cursor := s.cursor + 1 }
              = WST.run {
                  chunk_idx := s.chunk_idx + 1
                  cursor := 0
                  cur_size := c
                  cur_data := []
                  cur_labels := []
                  written := s.written
                    ++ [(s.cur_data ++ [a], s.cur_labels ++ [s.label_id])]
                  labels_lookup := s.labels_lookup
                  label_id := s.label_id
                  global_cursor := s.global_cursor + 1 } := by
            simp only [stepAdded, hget, hget2]
            rw [if_pos hfl]
          rw [hred, hstep]
          refine ⟨⟨?_, ?_, ?_, ?_, ?_⟩, ?_, fun hn => absurd hn hgn⟩
          · show s.global_cursor + 1 ≤ n
            omega
          · show s.chunk_idx + 1 = (s.global_cursor + 1) / c
            rw [hidx, hdq]
          · show 0 = (s.global_cursor + 1) % c
            rw [hdm]
          · show c = if (s.global_cursor + 1) / c < n / c then c else n % c
            rw [hdq, if_pos hq2]
          · intro hn
            have hn2 : s.global_cursor + 1 = n := hn
            show n % c = 0
            rw [hn2] at hdq
            omega
          · show s.global_cursor + 1 = min (s.global_cursor + 1) n
            omega
        · have hget2 : (chunk_sizes n c).get? (s.chunk_idx + 1)
              = some (n % c) := by
            rw [hidx, chunk_sizes_get?, if_neg hq2, if_pos (by omega)]
          have hstep : stepAdded (chunk_sizes n c) { s with
              cur_data := s.cur_data ++ [a]
              cur_labels := s.cur_labels ++ [s.label_id]
              global_cursor := s.global_cursor + 1
              cursor := s.cursor + 1 }
              = WST.run {
                  chunk_idx := s.chunk_idx + 1
                  cursor := 0
                  cur_size := n % c
                  cur_data := []
                  cur_labels := []
                  written := s.written
                    ++ [(s.cur_data ++ [a], s.cur_labels ++ [s.label_id])]
                  labels_lookup := s.labels_lookup
                  label_id := s.label_id
                  global_cursor := s.global_cursor + 1 } := by
            simp only [stepAdded, hget, hget2]
            rw [if_pos hfl]
          rw [hred, hstep]
          refine ⟨⟨?_, ?_, ?_, ?_, ?_⟩, ?_, fun hn => absurd hn hgn⟩
          · show s.global_cursor + 1 ≤ n
            omega
          · show s.chunk_idx + 1 = (s.global_cursor + 1) / c
            rw [hidx, hdq]
          · show 0 = (s.global_cursor + 1) % c
            rw [hdm]
          · show n % c = if (s.global_cursor + 1) / c < n / c then c else n % c
            rw [hdq, if_neg hq2]
          · intro hn
            have hn2 : s.global_cursor + 1 = n := hn
            show n % c = 0
            rw [hn2] at hdm
            exact hdm
          · show s.global_cursor + 1 = min (s.global_cursor + 1) n
            omega
      · have hstep : stepAdded (chunk_sizes n c) { s with
            cur_data := s.cur_data ++ [a]
            cur_labels := s.cur_labels ++ [s.label_id]
            global_cursor := s.global_cursor + 1
            cursor := s.cursor + 1 }
            = WST.run { s with
                cur_data := s.cur_data ++ [a]
                cur_labels := s.cur_labels ++ [s.label_id]
                global_cursor := s.global_cursor + 1
                cursor := s.cursor + 1 } := by
          simp only [stepAdded, hget]
          rw [if_neg hfl]
        obtain ⟨hdq, hdm⟩ := div_mod_succ_keep c s.global_cursor hc (by omega)
        rw [hred, hstep]
        refine ⟨⟨?_, ?_, ?_, ?_, ?_⟩, ?_, fun hn => absurd hn hgn⟩
        · show s.global_cursor + 1 ≤ n
          omega
        · show s.chunk_idx = (s.global_cursor + 1) / c
          rw [hidx, hdq]
        · show s.cursor + 1 = (s.global_cursor + 1) % c
          rw [hdm, hcur]
        · show s.cur_size = if (s.global_cursor + 1) / c < n / c then c
              else n % c
          rw [hszc, hdq, if_pos hq]
        · intro hn
          have hn2 : s.global_cursor + 1 = n := hn
          rw [hn2] at hdq
          omega
        · show s.global_cursor + 1 = min (s.global_cursor + 1) n
          omega
    · have hqe : s.global_cursor / c = n / c := le_antisymm hqle (not_lt.1 hq)
      have h1' := h1
      rw [hqe] at h1'
      have hsznc : s.cur_size = n % c := by rw [hsz, if_neg hq]
      have hget : (chunk_sizes n c).get? s.chunk_idx = some (n % c) := by
        rw [hidx, chunk_sizes_get?, if_neg hq, if_pos hqe]
      by_cases hfl : s.cursor + 1 = n % c
      · have hgn1 : s.global_cursor + 1 = n := by omega
        have hget2 : (chunk_sizes n c).get? (s.chunk_idx + 1) = none := by
          rw [hidx, chunk_sizes_get?, if_neg (by omega), if_neg (by omega)]
        have hstep : stepAdded (chunk_sizes n c) { s with
            cur_data := s.cur_data ++ [a]
            cur_labels := s.cur_labels ++ [s.label_id]
            global_cursor := s.global_cursor + 1
            cursor := s.cursor + 1 }
            = WST.idxStop {
                cursor := 0
                chunk_idx := s.chunk_idx + 1
                cur_size := s.cur_size
                cur_data := []
                cur_labels := []
                written := s.written
                  ++ [(s.cur_data ++ [a], s.cur_labels ++ [s.label_id])]
                labels_lookup := s.labels_lookup
                label_id := s.label_id
                global_cursor := s.global_cursor + 1 } := by
          simp only [stepAdded, hget, hget2]
          rw [if_pos hfl]
        rw [hred, hstep]
        refine ⟨hgn1, ?_, fun hn => absurd hn hgn⟩
        show s.global_cursor + 1 = min (s.global_cursor + 1) n
        omega
      · have hstep : stepAdded (chunk_sizes n c) { s with
            cur_data := s.cur_data ++ [a]
            cur_labels := s.cur_labels ++ [s.label_id]
            global_cursor := s.global_cursor + 1
            cursor := s.cursor + 1 }
            = WST.run { s with
                cur_data := s.cur_data ++ [a]
                cur_labels := s.cur_labels ++ [s.label_id]
                global_cursor := s.global_cursor + 1
                cursor := s.cursor + 1 } := by
          simp only [stepAdded, hget]
          rw [if_neg hfl]
        obtain ⟨hdq, hdm⟩ := div_mod_succ_keep c s.global_cursor hc (by omega)
        rw [hred, hstep]
        refine ⟨⟨?_, ?_, ?_, ?_, ?_⟩, ?_, fun hn => absurd hn hgn⟩
        · show s.global_cursor + 1 ≤ n
          omega
        · show s.chunk_idx = (s.global_cursor + 1) / c
          rw [hidx, hdq]
        · show s.cursor + 1 = (s.global_cursor + 1) % c
          rw [hdm, hcur]
        · show s.cur_size = if (s.global_cursor + 1) / c < n / c then c
              else n % c
          rw [hsznc, hdq, hqe, if_neg (lt_irrefl _)]
        · intro hn
          have hn2 : s.global_cursor + 1 = n := hn
          exfalso
          omega
        · show s.global_cursor + 1 = min (s.global_cursor + 1) n
          omega

def numFileToks : List (Tok α) → Nat
  | [] => 0
  | Tok.file _ :: ts => numFileToks ts + 1
  | Tok.openDir _ :: ts => numFileToks ts
  | Tok.closeDir :: ts => numFileToks ts

def TokOk : Tok α → Bool
  | .file (.error _) => false
  | _ => true

def excOk : Except Unit α → Bool
  | .ok _ => true
  | .error _ => false

def entryOk : Entry α → Bool
  | .dir _ fs => fs.all excOk
  | .nondir _ => true

def allOk (es : List (Entry α)) : Bool := es.all entryOk

def numFilesE : List (Entry α) → Nat
  | [] => 0
  | .dir _ fs :: es => fs.length + numFilesE es
  | .nondir _ :: es => numFilesE es

lemma toksOf_cons (e : Entry α) (es : List (Entry α)) :
    toksOf (e :: es) = e.toks ++ toksOf es := by
  simp [toksOf]

lemma numFileToks_append (l1 l2 : List (Tok α)) :
    numFileToks (l1 ++ l2) = numFileToks l1 + numFileToks l2 := by
  induction l1 with
  | nil => simp [numFileToks]
  | cons t l1 ih => cases t <;> simp [numFileToks, ih] <;> omega

lemma numFileToks_map_file (fs : List (Except Unit α)) :
    numFileToks (fs.map Tok.file) = fs.length := by
  induction fs with
  | nil => rfl
  | cons f fs ih => simp [numFileToks, ih]

lemma numFileToks_toksOf (es : List (Entry α)) :
    numFileToks (toksOf es) = numFilesE es := by
  induction es with
  | nil => rfl
  | cons e es ih =>
    rw [toksOf_cons, numFileToks_append, ih]
    cases e with
    | dir d fs =>
      show numFileToks (Tok.openDir d :: (fs.map Tok.file ++ [Tok.closeDir]))
          + numFilesE es = numFilesE (Entry.dir d fs :: es)
      rw [show numFileToks (Tok.openDir d :: (fs.map Tok.file ++ [Tok.closeDir]))
          = numFileToks (fs.map Tok.file ++ [Tok.closeDir]) from rfl]
      rw [numFileToks_append, numFileToks_map_file]
      show fs.length + 0 + numFilesE es = fs.length + numFilesE es
      omega
    | nondir d =>
      show numFileToks [] + numFilesE es = numFilesE es
      show 0 + numFilesE es = numFilesE es
      omega

lemma map_file_all_ok (fs : List (Except Unit α)) (h : fs.all excOk = true) :
    (fs.map Tok.file).all TokOk = true := by
  induction fs with
  | nil => rfl
  | cons f fs ih =>
    rw [List.all_cons, Bool.and_eq_true] at h
    rw [List.map_cons, List.all_cons, Bool.and_eq_true]
    refine ⟨?_, ih h.2⟩
    cases f with
    | ok a => rfl
    | error e => exact absurd h.1 (by simp [excOk])

lemma toksOf_all_ok (es : List (Entry α)) (h : allOk es = true) :
    (toksOf es).all TokOk = true := by
  induction es with
  | nil => rfl
  | cons e es ih =>
    rw [allOk, List.all_cons, Bool.and_eq_true] at h
    rw [toksOf_cons, List.all_append, Bool.and_eq_true]
    refine ⟨?_, ih h.2⟩
    cases e with
    | dir d fs =>
      show (Tok.openDir d :: (fs.map Tok.file ++ [Tok.closeDir])).all TokOk
          = true
      rw [List.all_cons, Bool.and_eq_true, List.all_append, Bool.and_eq_true]
      exact ⟨rfl, map_file_all_ok fs h.1, rfl⟩
    | nondir d => rfl

lemma goodSt_le (n c : Nat) (w : WST α) (h : GoodSt n c w) :
    w.st.global_cursor ≤ n := by
  cases w with
  | run s => exact h.1
  | idxStop s => exact le_of_eq h
  | xstop s => exact h.elim

lemma overflow_foldl (n c : Nat) (hc : 0 < c) (ts : List (Tok α))
    (hok : ts.all TokOk = true) (w : WST α) (hw : GoodSt n c w)
    (hcount : n < w.st.global_cursor + numFileToks ts) :
    (ts.foldl (stepTok (chunk_sizes n c)) w).isIdxStop = true ∧
    (ts.foldl (stepTok (chunk_sizes n c)) w).st.global_cursor = n := by
  induction ts generalizing w with
  | nil =>
    have := goodSt_le n c w hw
    exact absurd hcount (by simp only [numFileToks]; omega)
  | cons t ts ih =>
    rw [List.all_cons, Bool.and_eq_true] at hok
    rw [List.foldl_cons]
    cases w with
    | xstop s => exact hw.elim
    | idxStop s =>
      rw [show stepTok (chunk_sizes n c) (WST.idxStop s) t = WST.idxStop s
        from rfl]
      rw [foldl_stopped _ _ (WST.idxStop s) rfl]
      exact ⟨rfl, hw⟩
    | run s =>
      cases t with
      | openDir d =>
        exact ih hok.2 _ (ctrl_set_lookup n c s _ hw) hcount
      | closeDir =>
        exact ih hok.2 _ (ctrl_set_lid n c s _ hw) hcount
      | file r =>
        cases r with
        | error e => exact absurd hok.1 (by simp [TokOk])
        | ok a =>
          by_cases hgn : s.global_cursor = n
          · obtain ⟨hgood, hgc2, hstop3⟩ := file_ok_step n c hc s hw a
            have hstop4 := hstop3 hgn
            cases hstep : stepTok (chunk_sizes n c) (WST.run s)
                (Tok.file (Except.ok a)) with
            | run s2 =>
              rw [hstep] at hstop4
              exact absurd hstop4 (by simp [WST.isIdxStop])
            | xstop s2 =>
              rw [hstep] at hstop4
              exact absurd hstop4 (by simp [WST.isIdxStop])
            | idxStop s2 =>
              rw [hstep] at hgood
              rw [foldl_stopped _ _ (WST.idxStop s2) rfl]
              exact ⟨rfl, hgood⟩
          · obtain ⟨hgood, hgc2, _⟩ := file_ok_step n c hc s hw a
            refine ih hok.2 _ hgood ?_
            rw [hgc2]
            have hle : s.global_cursor ≤ n := (hw : Ctrl n c s).1
            have hcount2 : n < s.global_cursor + (numFileToks ts + 1) := hcount
            show n < min (s.global_cursor + 1) n + numFileToks ts
            omega

/-- Claim C10: when the source tree holds more transformable files than
the declared sample count `n` provides capacity for, the `IndexError`
raised at the overflow point is caught by the handler at lines 218 and
219: adding stops after exactly `n` samples, no error of any kind reaches
the caller, and the metadata record and the label lookup are still
written as if the write had completed. -/
theorem save_overflow_silent (n c : Nat) (hc : 0 < c) (es : List (Entry α))
    (hok : allOk es = true) (hmore : n < numFilesE es) :
    (save n c es).metaWritten = true ∧ (save n c es).overflowed = true ∧
    (saveSt n c es).st.global_cursor = n := by
  have h := overflow_foldl n c hc (toksOf es) (toksOf_all_ok es hok)
    (WST.run (initW n c)) (initW_ctrl n c hc)
    (by
      show n < (initW (α := α) n c).global_cursor + numFileToks (toksOf es)
      rw [numFileToks_toksOf]
      simp only [initW]
      omega)
  obtain ⟨hstop, hgc⟩ := h
  cases hres : (toksOf es).foldl (stepTok (chunk_sizes n c))
      (WST.run (initW n c)) with
  | run s =>
    rw [hres] at hstop
    exact absurd hstop (by simp [WST.isIdxStop])
  | xstop s =>
    rw [hres] at hstop
    exact absurd hstop (by simp [WST.isIdxStop])
  | idxStop s =>
    have hs2 : saveSt n c es = WST.idxStop s := hres
    have hsave : save n c es = SaveOutcome.ok s.written s.labels_lookup true := by
      unfold save
      rw [hs2]
    rw [hres] at hgc
    refine ⟨?_, ?_, ?_⟩
    · rw [hsave]
      rfl
    · rw [hsave]
      rfl
    · rw [hs2]
      exact hgc

theorem save_overflow_silent_witness :
    0 < 2 ∧
    allOk [Entry.dir "a" [Except.ok (1 : Nat), Except.ok 2, Except.ok 3]]
      = true ∧
    2 < numFilesE
      [Entry.dir "a" [Except.ok (1 : Nat), Except.ok 2, Except.ok 3]] ∧
    (save 2 2 [Entry.dir "a"
      [Except.ok (1 : Nat), Except.ok 2, Except.ok 3]]).metaWritten = true ∧
    (save 2 2 [Entry.dir "a"
      [Except.ok (1 : Nat), Except.ok 2, Except.ok 3]]).overflowed = true ∧
    (saveSt 2 2 [Entry.dir "a"
      [Except.ok (1 : Nat), Except.ok 2, Except.ok 3]]).st.global_cursor = 2 :=
  ⟨by decide, by decide, by decide,
    (save_overflow_silent 2 2 (by decide) _ (by decide) (by decide)).1,
    (save_overflow_silent 2 2 (by decide) _ (by decide) (by decide)).2.1,
    (save_overflow_silent 2 2 (by decide) _ (by decide) (by decide)).2.2⟩

/-- All labels the writer has associated to samples so far, flushed chunks
first, then the open chunk, in sample order. -/
def allLabels (s : WState α) : List Nat :=
  (s.written.map Prod.snd).flatten ++ s.cur_labels

/-- All samples the writer has stored so far, flushed chunks first, then
the open chunk, in sample order. -/
def allData (s : WState α) : List α :=
  (s.written.map Prod.fst).flatten ++ s.cur_data

def dirNames : List (Entry α) → List String
  | [] => []
  | .dir d _ :: es => d :: dirNames es
  | .nondir _ :: es => dirNames es

def lookupFrom (i : Nat) : List String → List (Nat × String)
  | [] => []
  | d :: ds => (i, d) :: lookupFrom (i + 1) ds

def labelsFrom (i : Nat) : List (Entry α) → List Nat
  | [] => []
  | .dir _ fs :: es => List.replicate fs.length i ++ labelsFrom (i + 1) es
  | .nondir _ :: es => labelsFrom i es

def valsOf : List (Except Unit α) → List α
  | [] => []
  | .ok a :: fs => a :: valsOf fs
  | .error _ :: fs => valsOf fs

def dataOfE : List (Entry α) → List α
  | [] => []
  | .dir _ fs :: es => valsOf fs ++ dataOfE es
  | .nondir _ :: es => dataOfE es

lemma file_run_content (cs : List Nat) (s s2 : WState α) (a : α)
    (heq : stepTok cs (.run s) (.file (.ok a)) = .run s2) :
    allLabels s2 = allLabels s ++ [s.label_id] ∧
    allData s2 = allData s ++ [a] ∧
    s2.labels_lookup = s.labels_lookup ∧
    s2.label_id = s.label_id ∧
    s2.global_cursor = s.global_cursor + 1 := by
  simp only [stepTok] at heq
  split at heq
  · unfold stepAdded at heq
    split at heq
    · cases heq
    · split at heq
      · split at heq
        · cases heq
        · injection heq with h
          subst h
          refine ⟨?_, ?_, rfl, rfl, rfl⟩
          · simp [allLabels, List.append_assoc]
          · simp [allData, List.append_assoc]
      · injection heq with h
        subst h
        refine ⟨?_, ?_, rfl, rfl, rfl⟩
        · simp [allLabels, List.append_assoc]
        · simp [allData, List.append_assoc]
  · cases heq

/-- A successfully transformed file whose processing still ends in the
swallowed `IndexError` does so in one of two ways: `chunk.add` itself
raised, leaving the state untouched, or the add and flush went through
and the allocation of the next `ImageChunk` raised, in which case the
sample and its label were stored like in a normal step. -/
lemma file_stop_cases (cs : List Nat) (s s2 : WState α) (a : α)
    (heq : stepTok cs (.run s) (.file (.ok a)) = .idxStop s2) :
    s2 = s ∨
    (allLabels s2 = allLabels s ++ [s.label_id] ∧
      allData s2 = allData s ++ [a] ∧
      s2.labels_lookup = s.labels_lookup ∧
      s2.label_id = s.label_id ∧
      s2.global_cursor = s.global_cursor + 1) := by
  simp only [stepTok] at heq
  split at heq
  · unfold stepAdded at heq
    split at heq
    · injection heq with h
      subst h
      refine Or.inr ⟨?_, ?_, rfl, rfl, rfl⟩
      · simp [allLabels, List.append_assoc]
      · simp [allData, List.append_assoc]
    · split at heq
      · split at heq
        · injection heq with h
          subst h
          refine Or.inr ⟨?_, ?_, rfl, rfl, rfl⟩
          · simp [allLabels, List.append_assoc]
          · simp [allData, List.append_assoc]
        · cases heq
      · cases heq
  · injection heq with h
    exact Or.inl h.symm

lemma files_fold_content (cs : List Nat) (fs : List (Except Unit α)) :
    ∀ s : WState α,
    (∀ s', (fs.map Tok.file).foldl (stepTok cs) (.run s) = .run s' →
      allLabels s' = allLabels s ++ List.replicate fs.length s.label_id ∧
      allData s' = allData s ++ valsOf fs ∧
      s'.labels_lookup = s.labels_lookup ∧
      s'.label_id = s.label_id ∧
      s'.global_cursor = s.global_cursor + fs.length) ∧
    (∀ s', (fs.map Tok.file).foldl (stepTok cs) (.run s) = .idxStop s' →
      s'.global_cursor ≤ s.global_cursor + fs.length ∧
      (s'.global_cursor = s.global_cursor + fs.length →
        allLabels s' = allLabels s
            ++ List.replicate fs.length s.label_id ∧
        allData s' = allData s ++ valsOf fs ∧
        s'.labels_lookup = s.labels_lookup ∧
        s'.label_id = s.label_id)) := by
  induction fs with
  | nil =>
    intro s
    constructor
    · intro s' h
      cases h
      exact ⟨by simp, by simp [valsOf], rfl, rfl, rfl⟩
    · intro s' h
      cases h
  | cons f fs ih =>
    intro s
    cases f with
    | error e =>
      constructor
      · intro s' h
        rw [List.map_cons, List.foldl_cons,
          show stepTok cs (WST.run s) (Tok.file (Except.error e))
            = WST.xstop s from rfl,
          foldl_stopped _ _ (WST.xstop s) rfl] at h
        cases h
      · intro s' h
        rw [List.map_cons, List.foldl_cons,
          show stepTok cs (WST.run s) (Tok.file (Except.error e))
            = WST.xstop s from rfl,
          foldl_stopped _ _ (WST.xstop s) rfl] at h
        cases h
    | ok a =>
      cases hstep : stepTok cs (WST.run s) (Tok.file (Except.ok a)) with
      | xstop s1 =>
        constructor
        · intro s' h
          rw [List.map_cons, List.foldl_cons, hstep,
            foldl_stopped _ _ (WST.xstop s1) rfl] at h
          cases h
        · intro s' h
          rw [List.map_cons, List.foldl_cons, hstep,
            foldl_stopped _ _ (WST.xstop s1) rfl] at h
          cases h
      | idxStop s1 =>
        constructor
        · intro s' h
          rw [List.map_cons, List.foldl_cons, hstep,
            foldl_stopped _ _ (WST.idxStop s1) rfl] at h
          cases h
        · intro s' h
          rw [List.map_cons, List.foldl_cons, hstep,
            foldl_stopped _ _ (WST.idxStop s1) rfl] at h
          injection h with h2
          subst h2
          rcases file_stop_cases cs s s1 a hstep with
            h1 | ⟨hl, hd, hlk, hlid, hgc⟩
          · subst h1
            constructor
            · rw [List.length_cons]
              omega
            · intro habs
              rw [List.length_cons] at habs
              exact absurd habs (by omega)
          · constructor
            · rw [List.length_cons, hgc]
              omega
            · intro hgceq
              rw [List.length_cons, hgc] at hgceq
              have hlen : fs.length = 0 := by omega
              have hfsnil : fs = [] := List.length_eq_zero.1 hlen
              subst hfsnil
              refine ⟨?_, ?_, hlk, hlid⟩
              · rw [hl]
                rfl
              · rw [hd]
                rfl
      | run s1 =>
        obtain ⟨hl, hd, hlk, hlid, hgc⟩ := file_run_content cs s s1 a hstep
        obtain ⟨ihrun, ihstop⟩ := ih s1
        constructor
        · intro s' h
          rw [List.map_cons, List.foldl_cons, hstep] at h
          obtain ⟨al, ad, alk, alid, agc⟩ := ihrun s' h
          refine ⟨?_, ?_, by rw [alk, hlk], by rw [alid, hlid], ?_⟩
          · rw [al, hl, hlid, List.append_assoc]
            show allLabels s ++ ([s.label_id]
                ++ List.replicate fs.length s.label_id)
              = allLabels s ++ List.replicate (fs.length + 1) s.label_id
            rw [List.singleton_append, ← List.replicate_succ]
          · rw [ad, hd, List.append_assoc, List.singleton_append]
            rfl
          · rw [agc, hgc, List.length_cons]
            omega
        · intro s' h
          rw [List.map_cons, List.foldl_cons, hstep] at h
          obtain ⟨hbound, hinner⟩ := ihstop s' h
          constructor
          · rw [List.length_cons]
            omega
          · intro hgceq
            rw [List.length_cons] at hgceq
            have hup : s'.global_cursor = s1.global_cursor + fs.length := by
              omega
            obtain ⟨al, ad, alk, alid⟩ := hinner hup
            refine ⟨?_, ?_, by rw [alk, hlk], by rw [alid, hlid]⟩
            · rw [al, hl, hlid, List.append_assoc]
              show allLabels s ++ ([s.label_id]
                  ++ List.replicate fs.length s.label_id)
                = allLabels s ++ List.replicate (fs.length + 1) s.label_id
              rw [List.singleton_append, ← List.replicate_succ]
            · rw [ad, hd, List.append_assoc, List.singleton_append]
              rfl

def anyFileIn : List (Entry α) → Bool
  | [] => false
  | .dir _ (_ :: _) :: _ => true
  | .dir _ [] :: es => anyFileIn es
  | .nondir _ :: es => anyFileIn es

/-- Every file-less class subdirectory is followed by at least one later
file. Then the scan opens it before any `IndexError` can fire at the last
file, so it still receives a label id even on a run that ends in the
swallowed `IndexError`. -/
def emptyDirsCovered : List (Entry α) → Bool
  | [] => true
  | .dir _ [] :: es => anyFileIn es && emptyDirsCovered es
  | .dir _ (_ :: _) :: es => emptyDirsCovered es
  | .nondir _ :: es => emptyDirsCovered es

lemma no_files_no_any (es : List (Entry α)) (h : numFilesE es = 0) :
    anyFileIn es = false := by
  induction es with
  | nil => rfl
  | cons e es ih =>
    cases e with
    | nondir d => exact ih h
    | dir d fs =>
      cases fs with
      | nil =>
        have h2 : 0 + numFilesE es = 0 := h
        exact ih (by omega)
      | cons f fs2 =>
        exfalso
        have h2 : (f :: fs2).length + numFilesE es = 0 := h
        rw [List.length_cons] at h2
        omega

lemma no_files_covered_no_dirs (es : List (Entry α))
    (h0 : numFilesE es = 0) (hcov : emptyDirsCovered es = true) :
    dirNames es = [] ∧ (∀ i, labelsFrom i es = []) ∧ dataOfE es = [] := by
  induction es with
  | nil => exact ⟨rfl, fun i => rfl, rfl⟩
  | cons e es ih =>
    cases e with
    | nondir d => exact ih h0 hcov
    | dir d fs =>
      cases fs with
      | nil =>
        exfalso
        have h2 : 0 + numFilesE es = 0 := h0
        have hcov2 : (anyFileIn es && emptyDirsCovered es) = true := hcov
        rw [no_files_no_any es (by omega)] at hcov2
        simp at hcov2
      | cons f fs2 =>
        exfalso
        have h2 : (f :: fs2).length + numFilesE es = 0 := h0
        rw [List.length_cons] at h2
        omega

lemma entries_fold_content (cs : List Nat) (es : List (Entry α)) :
    ∀ s : WState α,
    (∀ s', (toksOf es).foldl (stepTok cs) (.run s) = .run s' →
      s'.labels_lookup = s.labels_lookup
          ++ lookupFrom s.label_id (dirNames es) ∧
      allLabels s' = allLabels s ++ labelsFrom s.label_id es ∧
      allData s' = allData s ++ dataOfE es ∧
      s'.label_id = s.label_id + (dirNames es).length ∧
      s'.global_cursor = s.global_cursor + numFilesE es) ∧
    (∀ s', (toksOf es).foldl (stepTok cs) (.run s) = .idxStop s' →
      s'.global_cursor ≤ s.global_cursor + numFilesE es ∧
      (s'.global_cursor = s.global_cursor + numFilesE es →
        emptyDirsCovered es = true →
        s'.labels_lookup = s.labels_lookup
            ++ lookupFrom s.label_id (dirNames es) ∧
        allLabels s' = allLabels s ++ labelsFrom s.label_id es ∧
        allData s' = allData s ++ dataOfE es)) := by
  induction es with
  | nil =>
    intro s
    constructor
    · intro s' h
      cases h
      exact ⟨by simp [lookupFrom, dirNames], by simp [labelsFrom],
        by simp [dataOfE], by simp [dirNames], by simp [numFilesE]⟩
    · intro s' h
      cases h
  | cons e es ih =>
    intro s
    cases e with
    | nondir d => exact ih s
    | dir d fs =>
      constructor
      · intro s' hrun
        rw [toksOf_cons, List.foldl_append,
          show Entry.toks (Entry.dir d fs)
            = Tok.openDir d :: (fs.map Tok.file ++ [Tok.closeDir]) from rfl,
          List.foldl_cons,
          show stepTok cs (WST.run s) (Tok.openDir d) = WST.run { s with
            labels_lookup := s.labels_lookup ++ [(s.label_id, d)] } from rfl,
          List.foldl_append, List.foldl_cons, List.foldl_nil] at hrun
        cases hF : (fs.map Tok.file).foldl (stepTok cs) (WST.run { s with
            labels_lookup := s.labels_lookup ++ [(s.label_id, d)] }) with
        | xstop s1 =>
          rw [hF, show stepTok cs (WST.xstop s1) Tok.closeDir
              = WST.xstop s1 from rfl,
            foldl_stopped _ _ (WST.xstop s1) rfl] at hrun
          cases hrun
        | idxStop s1 =>
          rw [hF, show stepTok cs (WST.idxStop s1) Tok.closeDir
              = WST.idxStop s1 from rfl,
            foldl_stopped _ _ (WST.idxStop s1) rfl] at hrun
          cases hrun
        | run s1 =>
          rw [hF, show stepTok cs (WST.run s1) Tok.closeDir
              = WST.run { s1 with label_id := s1.label_id + 1 } from rfl]
            at hrun
          obtain ⟨hfl, hfd, hflk, hfid, hfgc⟩ :=
            (files_fold_content cs fs _).1 s1 hF
          obtain ⟨hlk2, hl2, hd2, hid2, hgc2⟩ := (ih _).1 s' hrun
          have hBlk : ({ s1 with label_id := s1.label_id + 1 }
              : WState α).labels_lookup = s1.labels_lookup := rfl
          have hBid : ({ s1 with label_id := s1.label_id + 1 }
              : WState α).label_id = s1.label_id + 1 := rfl
          refine ⟨?_, ?_, ?_, ?_, ?_⟩
          · rw [hlk2, hBlk, hflk, hBid, hfid]
            show (s.labels_lookup ++ [(s.label_id, d)])
                ++ lookupFrom (s.label_id + 1) (dirNames es)
              = s.labels_lookup
                ++ lookupFrom s.label_id (dirNames (Entry.dir d fs :: es))
            rw [List.append_assoc, List.singleton_append]
            rfl
          · rw [hl2, show allLabels ({ s1 with label_id := s1.label_id + 1 }
                : WState α) = allLabels s1 from rfl, hfl, hBid, hfid,
              show allLabels ({ s with labels_lookup := s.labels_lookup
                ++ [(s.label_id, d)] } : WState α) = allLabels s from rfl,
              List.append_assoc]
            rfl
          · rw [hd2, show allData ({ s1 with label_id := s1.label_id + 1 }
                : WState α) = allData s1 from rfl, hfd,
              show allData ({ s with labels_lookup := s.labels_lookup
                ++ [(s.label_id, d)] } : WState α) = allData s from rfl,
              List.append_assoc]
            rfl
          · rw [hid2, hBid, hfid]
            show s.label_id + 1 + (dirNames es).length
              = s.label_id + (d :: dirNames es).length
            rw [List.length_cons]
            omega
          · have hgc3 : s'.global_cursor
                = s1.global_cursor + numFilesE es := hgc2
            have hfgc2 : s1.global_cursor
                = s.global_cursor + fs.length := hfgc
            show s'.global_cursor
              = s.global_cursor + (fs.length + numFilesE es)
            omega
      · intro s' hstop
        rw [toksOf_cons, List.foldl_append,
          show Entry.toks (Entry.dir d fs)
            = Tok.openDir d :: (fs.map Tok.file ++ [Tok.closeDir]) from rfl,
          List.foldl_cons,
          show stepTok cs (WST.run s) (Tok.openDir d) = WST.run { s with
            labels_lookup := s.labels_lookup ++ [(s.label_id, d)] } from rfl,
          List.foldl_append, List.foldl_cons, List.foldl_nil] at hstop
        cases hF : (fs.map Tok.file).foldl (stepTok cs) (WST.run { s with
            labels_lookup := s.labels_lookup ++ [(s.label_id, d)] }) with
        | xstop s1 =>
          rw [hF, show stepTok cs (WST.xstop s1) Tok.closeDir
              = WST.xstop s1 from rfl,
            foldl_stopped _ _ (WST.xstop s1) rfl] at hstop
          cases hstop
        | run s1 =>
          rw [hF, show stepTok cs (WST.run s1) Tok.closeDir
              = WST.run { s1 with label_id := s1.label_id + 1 } from rfl]
            at hstop
          obtain ⟨hfl, hfd, hflk, hfid, hfgc⟩ :=
            (files_fold_content cs fs _).1 s1 hF
          obtain ⟨hbound, hinner⟩ := (ih _).2 s' hstop
          have hfgc2 : s1.global_cursor
              = s.global_cursor + fs.length := hfgc
          have hbound2 : s'.global_cursor
              ≤ s1.global_cursor + numFilesE es := hbound
          constructor
          · show s'.global_cursor
              ≤ s.global_cursor + (fs.length + numFilesE es)
            omega
          · intro hgceq hcov
            have hgceq2 : s'.global_cursor
                = s.global_cursor + (fs.length + numFilesE es) := hgceq
            have hup : s'.global_cursor
                = ({ s1 with label_id := s1.label_id + 1 }
                  : WState α).global_cursor + numFilesE es := by
              show s'.global_cursor = s1.global_cursor + numFilesE es
              omega
            have hcov2 : emptyDirsCovered es = true := by
              cases fs with
              | nil =>
                have hcov3 : (anyFileIn es && emptyDirsCovered es) = true :=
                  hcov
                rw [Bool.and_eq_true] at hcov3
                exact hcov3.2
              | cons f fs2 => exact hcov
            obtain ⟨alk, al, ad⟩ := hinner hup hcov2
            have hBlk : ({ s1 with label_id := s1.label_id + 1 }
                : WState α).labels_lookup = s1.labels_lookup := rfl
            have hBid : ({ s1 with label_id := s1.label_id + 1 }
                : WState α).label_id = s1.label_id + 1 := rfl
            refine ⟨?_, ?_, ?_⟩
            · rw [alk, hBlk, hflk, hBid, hfid]
              show (s.labels_lookup ++ [(s.label_id, d)])
                  ++ lookupFrom (s.label_id + 1) (dirNames es)
                = s.labels_lookup
                  ++ lookupFrom s.label_id (dirNames (Entry.dir d fs :: es))
              rw [List.append_assoc, List.singleton_append]
              rfl
            · rw [al, show allLabels ({ s1 with label_id := s1.label_id + 1 }
                  : WState α) = allLabels s1 from rfl, hfl, hBid, hfid,
                show allLabels ({ s with labels_lookup := s.labels_lookup
                  ++ [(s.label_id, d)] } : WState α) = allLabels s from rfl,
                List.append_assoc]
              rfl
            · rw [ad, show allData ({ s1 with label_id := s1.label_id + 1 }
                  : WState α) = allData s1 from rfl, hfd,
                show allData ({ s with labels_lookup := s.labels_lookup
                  ++ [(s.label_id, d)] } : WState α) = allData s from rfl,
                List.append_assoc]
              rfl
        | idxStop s1 =>
          rw [hF, show stepTok cs (WST.idxStop s1) Tok.closeDir
              = WST.idxStop s1 from rfl,
            foldl_stopped _ _ (WST.idxStop s1) rfl] at hstop
          injection hstop with h2
          subst h2
          obtain ⟨hfbound, hfinner⟩ := (files_fold_content cs fs _).2 s1 hF
          have hfb : s1.global_cursor ≤ s.global_cursor + fs.length :=
            hfbound
          constructor
          · show s1.global_cursor
              ≤ s.global_cursor + (fs.length + numFilesE es)
            omega
          · intro hgceq hcov
            have hgceq2 : s1.global_cursor
                = s.global_cursor + (fs.length + numFilesE es) := hgceq
            have hzero : numFilesE es = 0 := by omega
            have heq2 : s1.global_cursor
                = ({ s with labels_lookup := s.labels_lookup
                  ++ [(s.label_id, d)] } : WState α).global_cursor
                  + fs.length := by
              show s1.global_cursor = s.global_cursor + fs.length
              omega
            have hcov2 : emptyDirsCovered es = true := by
              cases fs with
              | nil =>
                have hcov3 : (anyFileIn es && emptyDirsCovered es) = true :=
                  hcov
                rw [Bool.and_eq_true] at hcov3
                exact hcov3.2
              | cons f fs2 => exact hcov
            obtain ⟨hnd, hnl, hnD⟩ := no_files_covered_no_dirs es hzero hcov2
            obtain ⟨hfl, hfd, hflk, hflid⟩ := hfinner heq2
            refine ⟨?_, ?_, ?_⟩
            · rw [hflk]
              show s.labels_lookup ++ [(s.label_id, d)]
                = s.labels_lookup
                  ++ lookupFrom s.label_id (dirNames (Entry.dir d fs :: es))
              rw [show dirNames (Entry.dir d fs :: es)
                  = d :: dirNames es from rfl, hnd]
              rfl
            · rw [hfl]
              show allLabels s ++ List.replicate fs.length s.label_id
                = allLabels s ++ labelsFrom s.label_id (Entry.dir d fs :: es)
              rw [show labelsFrom s.label_id (Entry.dir d fs :: es)
                  = List.replicate fs.length s.label_id
                    ++ labelsFrom (s.label_id + 1) es from rfl,
                hnl (s.label_id + 1), List.append_nil]
            · rw [hfd]
              show allData s ++ valsOf fs
                = allData s ++ dataOfE (Entry.dir d fs :: es)
              rw [show dataOfE (Entry.dir d fs :: es)
                  = valsOf fs ++ dataOfE es from rfl, hnD, List.append_nil]

/-- Claim C9: whenever the writer scan visits every entry — it either
ends still running, or ends in the swallowed `IndexError` of lines 218
and 219 having added every file, with every file-less subdirectory
followed by a later file (so its `listdir` entry was reached before the
final file raised) — the label lookup maps the dense ids 0, 1, 2, and so
on, one fresh id per class subdirectory in directory-iteration order, to
the subdirectory names; non-directory entries consume no id; and the
sequence of stored labels pairs every sample of a subdirectory,
positionally, with that subdirectory's id. This covers the exact-count
case `n % c ≠ 0`, where the final chunk allocation raises after the last
sample was stored and the lookup is still written. -/
theorem save_label_ids (n c : Nat) (es : List (Entry α))
    (hfin : (saveSt n c es).isRun = true ∨
      ((saveSt n c es).isIdxStop = true ∧
        (saveSt n c es).st.global_cursor = numFilesE es ∧
        emptyDirsCovered es = true)) :
    (saveSt n c es).st.labels_lookup = lookupFrom 0 (dirNames es) ∧
    allLabels (saveSt n c es).st = labelsFrom 0 es ∧
    allData (saveSt n c es).st = dataOfE es := by
  obtain ⟨crun, cstop⟩ := entries_fold_content (chunk_sizes n c) es
    (initW n c)
  cases hres : saveSt n c es with
  | xstop s =>
    rw [hres] at hfin
    rcases hfin with h | ⟨h, _, _⟩
    · exact absurd h (by simp [WST.isRun])
    · exact absurd h (by simp [WST.isIdxStop])
  | run s =>
    have h : (toksOf es).foldl (stepTok (chunk_sizes n c))
        (.run (initW n c)) = .run s := hres
    obtain ⟨hlk, hl, hd, _, _⟩ := crun s h
    refine ⟨?_, ?_, ?_⟩
    · show s.labels_lookup = lookupFrom 0 (dirNames es)
      rw [hlk]
      show ([] : List (Nat × String)) ++ lookupFrom 0 (dirNames es) = _
      rw [List.nil_append]
    · show allLabels s = labelsFrom 0 es
      rw [hl]
      show allLabels (initW n c) ++ labelsFrom 0 es = labelsFrom 0 es
      rw [show allLabels (initW (α := α) n c) = [] from rfl,
        List.nil_append]
    · show allData s = dataOfE es
      rw [hd]
      show allData (initW n c) ++ dataOfE es = dataOfE es
      rw [show allData (initW (α := α) n c) = [] from rfl, List.nil_append]
  | idxStop s =>
    rw [hres] at hfin
    rcases hfin with h | ⟨_, hgc, hcov⟩
    · exact absurd h (by simp [WST.isRun])
    · have h : (toksOf es).foldl (stepTok (chunk_sizes n c))
          (.run (initW n c)) = .idxStop s := hres
      obtain ⟨_, hinner⟩ := cstop s h
      have hgc2 : s.global_cursor
          = (initW (α := α) n c).global_cursor + numFilesE es := by
        have hgc3 : s.global_cursor = numFilesE es := hgc
        show s.global_cursor = 0 + numFilesE es
        omega
      obtain ⟨hlk, hl, hd⟩ := hinner hgc2 hcov
      refine ⟨?_, ?_, ?_⟩
      · show s.labels_lookup = lookupFrom 0 (dirNames es)
        rw [hlk]
        show ([] : List (Nat × String)) ++ lookupFrom 0 (dirNames es) = _
        rw [List.nil_append]
      · show allLabels s = labelsFrom 0 es
        rw [hl]
        show allLabels (initW n c) ++ labelsFrom 0 es = labelsFrom 0 es
        rw [show allLabels (initW (α := α) n c) = [] from rfl,
          List.nil_append]
      · show allData s = dataOfE es
        rw [hd]
        show allData (initW n c) ++ dataOfE es = dataOfE es
        rw [show allData (initW (α := α) n c) = [] from rfl,
          List.nil_append]

theorem save_label_ids_witness :
    ((saveSt 10 4 [Entry.dir "A" [Except.ok (1 : Nat), Except.ok 2,
        Except.ok 3, Except.ok 4, Except.ok 5, Except.ok 6],
      Entry.dir "B" [Except.ok 7, Except.ok 8, Except.ok 9,
        Except.ok 10]]).isIdxStop = true ∧
      (saveSt 10 4 [Entry.dir "A" [Except.ok (1 : Nat), Except.ok 2,
          Except.ok 3, Except.ok 4, Except.ok 5, Except.ok 6],
        Entry.dir "B" [Except.ok 7, Except.ok 8, Except.ok 9,
          Except.ok 10]]).st.global_cursor
        = numFilesE [Entry.dir "A" [Except.ok (1 : Nat), Except.ok 2,
            Except.ok 3, Except.ok 4, Except.ok 5, Except.ok 6],
          Entry.dir "B" [Except.ok 7, Except.ok 8, Except.ok 9,
            Except.ok 10]] ∧
      emptyDirsCovered [Entry.dir "A" [Except.ok (1 : Nat), Except.ok 2,
          Except.ok 3, Except.ok 4, Except.ok 5, Except.ok 6],
        Entry.dir "B" [Except.ok 7, Except.ok 8, Except.ok 9,
          Except.ok 10]] = true) ∧
    ((saveSt 10 4 [Entry.dir "A" [Except.ok (1 : Nat), Except.ok 2,
        Except.ok 3, Except.ok 4, Except.ok 5, Except.ok 6],
      Entry.dir "B" [Except.ok 7, Except.ok 8, Except.ok 9,
        Except.ok 10]]).st.labels_lookup
        = lookupFrom 0 (dirNames [Entry.dir "A" [Except.ok (1 : Nat),
            Except.ok 2, Except.ok 3, Except.ok 4, Except.ok 5,
            Except.ok 6],
          Entry.dir "B" [Except.ok 7, Except.ok 8, Except.ok 9,
            Except.ok 10]]) ∧
      allLabels (saveSt 10 4 [Entry.dir "A" [Except.ok (1 : Nat),
          Except.ok 2, Except.ok 3, Except.ok 4, Except.ok 5,
          Except.ok 6],
        Entry.dir "B" [Except.ok 7, Except.ok 8, Except.ok 9,
          Except.ok 10]]).st
        = labelsFrom 0 [Entry.dir "A" [Except.ok (1 : Nat), Except.ok 2,
            Except.ok 3, Except.ok 4, Except.ok 5, Except.ok 6],
          Entry.dir "B" [Except.ok 7, Except.ok 8, Except.ok 9,
            Except.ok 10]] ∧
      allData (saveSt 10 4 [Entry.dir "A" [Except.ok (1 : Nat),
          Except.ok 2, Except.ok 3, Except.ok 4, Except.ok 5,
          Except.ok 6],
        Entry.dir "B" [Except.ok 7, Except.ok 8, Except.ok 9,
          Except.ok 10]]).st
        = dataOfE [Entry.dir "A" [Except.ok (1 : Nat), Except.ok 2,
            Except.ok 3, Except.ok 4, Except.ok 5, Except.ok 6],
          Entry.dir "B" [Except.ok 7, Except.ok 8, Except.ok 9,
            Except.ok 10]]) :=
  ⟨by decide, save_label_ids 10 4 _ (Or.inr (by decide))⟩

theorem save_fail_fast_witness :
    (saveSt 5 2 ([] ++ [Entry.dir "a" [Except.ok (1 : Nat)]])).isRun = true ∧
    (save 5 2 ([] ++ Entry.dir "a"
        ([Except.ok (1 : Nat)] ++ Except.error () :: [Except.ok 2]) :: [])).metaWritten
      = false :=
  ⟨by decide,
    (save_fail_fast 5 2 [] "a" [Except.ok 1] [Except.ok 2] [] (by decide)).1⟩

/-- The on-disk dataset as the reader sees it after construction: the
chunk-size list from `{name}.info.dat` and, for each chunk index, the
records stored in `{name}.{i:03}.x.pt` and `{name}.{i:03}.y.pt`
(`torch.save` then `torch.load` is value-preserving, so a record is
modelled by the stored list itself). -/
structure Dataset (α : Type) where
  sizes : List Nat
  chunkX : Nat → List α
  chunkY : Nat → List Nat

/-- Lines 264 to 268: `1 if not self.data_selector else 0`, used both by
`_flip_selector` and `_get_inverted_selector`. -/
def inv_sel (s : Nat) : Nat := if s = 0 then 1 else 0

/-- Lines 277 and 278: `self.data[sel][0:self.chunk_sizes[chunk_id]] = x`
as a functional slice assignment on a buffer list. -/
def sliceAssign (slot x : List α) (sz : Nat) : List α :=
  x.take sz ++ slot.drop sz

/-- The two `torch.save` records of one chunk (lines 205 to 214): the
dense sample buffer and the parallel label buffer. -/
def encodeChunk (x : List α) (y : List Nat) : List α × List Nat := (x, y)

/-- The mutable state of `CachedImageDataset`: `cur_id`, `data_selector`,
and the two shared-memory slots for data and labels. `occ0` and `occ1`
are model bookkeeping only: the chunk id whose load last wrote each slot
(`none` while a slot still holds its `torch.zeros` initial fill). -/
structure RState (α : Type) where
  cur_id : Nat
  data_selector : Nat
  data0 : List α
  data1 : List α
  labels0 : List Nat
  labels1 : List Nat
  occ0 : Option Nat
  occ1 : Option Nat

/-- `CachedImageDataset._load` (lines 270 to 279): pick the chunk id and
the slot, then overwrite the prefix `[0, chunk_sizes[chunk_id])` of that
slot with the loaded records. The trailing `time.sleep(3)` changes no
state. -/
def load (ds : Dataset α) (init : Bool) (s : RState α) : RState α :=
  let chunk_id := if init then 0 else s.cur_id
  let sel := if init then 0 else inv_sel s.data_selector
  let sz := ds.sizes.getD chunk_id 0
  if sel = 0 then
    { s with
      data0 := sliceAssign s.data0 (ds.chunkX chunk_id) sz
      labels0 := sliceAssign s.labels0 (ds.chunkY chunk_id) sz
      occ0 := some chunk_id }
  else
    { s with
      data1 := sliceAssign s.data1 (ds.chunkX chunk_id) sz
      labels1 := sliceAssign s.labels1 (ds.chunkY chunk_id) sz
      occ1 := some chunk_id }

/-- `chunk_sizes[0]`, the capacity of both slots (lines 248 to 256). -/
def cap (ds : Dataset α) : Nat := ds.sizes.headD 0

/-- `CachedImageDataset.__init__` followed by the synchronous
`self._load(True)` at the top of `__iter__`: both slots are zero-filled
at capacity, `cur_id = 0`, `data_selector = 0`, then chunk 0 is loaded
into slot 0. `z` is the zero sample of `torch.zeros`. -/
def initR (ds : Dataset α) (z : α) : RState α :=
  load ds true
    { cur_id := 0
      data_selector := 0
      data0 := List.replicate (cap ds) z
      data1 := List.replicate (cap ds) z
      labels0 := List.replicate (cap ds) 0
      labels1 := List.replicate (cap ds) 0
      occ0 := none
      occ1 := none }

/-- One pass of the `for _ in self._next_file():` loop body (lines 286
to 293), observed at the join: the `_next_file` generator advances
`cur_id` first (lines 258 to 262); the spawned `self._load(False)`
process writes the inactive slot (when `lok j` is false the child died,
and since `mp.Process.join` does not re-raise child exceptions the slot
is simply left unwritten and no error surfaces); the drain yields
`chunk_sizes[self.cur_id]` pairs from the active slot, `cur_id` having
already advanced past the chunk that slot holds; then the selector flips
and the join returns. The load and the drain touch different slots, so
evaluating the load before the drain is state-equivalent to running them
concurrently. -/
def iterStep (ds : Dataset α) (z : α) (lok : Nat → Bool) (j : Nat)
    (s : RState α) : RState α × List (α × Nat) :=
  let s1 := { s with cur_id := (s.cur_id + 1) % ds.sizes.length }
  let s2 := if lok j then load ds false s1 else s1
  let bound := ds.sizes.getD s1.cur_id 0
  let out := (List.range bound).map (fun i =>
    if s2.data_selector = 0 then (s2.data0.getD i z, s2.labels0.getD i 0)
    else (s2.data1.getD i z, s2.labels1.getD i 0))
  ({ s2 with data_selector := inv_sel s2.data_selector }, out)

/-- The reader state entering the drain of outer-loop iteration `j`
(iteration 0 is the first drain after construction). -/
def readerAfter (ds : Dataset α) (z : α) (lok : Nat → Bool) : Nat → RState α
  | 0 => initR ds z
  | j + 1 => (iterStep ds z lok j (readerAfter ds z lok j)).1

/-- The pairs the consumer receives from drain number `j`. -/
def drainAt (ds : Dataset α) (z : α) (lok : Nat → Bool) (j : Nat) :
    List (α × Nat) :=
  (iterStep ds z lok j (readerAfter ds z lok j)).2

/-- The chunk whose contents occupy the active slot during drain `j`. -/
def activeChunkAt (ds : Dataset α) (z : α) (lok : Nat → Bool) (j : Nat) :
    Option Nat :=
  let s := readerAfter ds z lok j
  if s.data_selector = 0 then s.occ0 else s.occ1

/-- All background loads complete normally. -/
def alwaysOk : Nat → Bool := fun _ => true

lemma iterStep_state_sel0 (ds : Dataset α) (z : α) (lok : Nat → Bool)
    (j : Nat) (s : RState α) (h : s.data_selector = 0)
    (hl : lok j = true) :
    (iterStep ds z lok j s).1.cur_id = (s.cur_id + 1) % ds.sizes.length ∧
    (iterStep ds z lok j s).1.data_selector = 1 ∧
    (iterStep ds z lok j s).1.occ1
      = some ((s.cur_id + 1) % ds.sizes.length) ∧
    (iterStep ds z lok j s).1.occ0 = s.occ0 := by
  unfold iterStep load
  rw [hl]
  simp [h, inv_sel]

lemma iterStep_state_sel1 (ds : Dataset α) (z : α) (lok : Nat → Bool)
    (j : Nat) (s : RState α) (h : s.data_selector = 1)
    (hl : lok j = true) :
    (iterStep ds z lok j s).1.cur_id = (s.cur_id + 1) % ds.sizes.length ∧
    (iterStep ds z lok j s).1.data_selector = 0 ∧
    (iterStep ds z lok j s).1.occ0
      = some ((s.cur_id + 1) % ds.sizes.length) ∧
    (iterStep ds z lok j s).1.occ1 = s.occ1 := by
  unfold iterStep load
  rw [hl]
  simp [h, inv_sel]

lemma readerAfter_inv (ds : Dataset α) (z : α) (j : Nat) :
    (readerAfter ds z alwaysOk j).cur_id = j % ds.sizes.length ∧
    (readerAfter ds z alwaysOk j).data_selector = j % 2 ∧
    (if j % 2 = 0 then (readerAfter ds z alwaysOk j).occ0
      else (readerAfter ds z alwaysOk j).occ1)
      = some (j % ds.sizes.length) := by
  induction j with
  | zero =>
    rw [Nat.zero_mod, Nat.zero_mod]
    exact ⟨rfl, rfl, rfl⟩
  | succ j ih =>
    obtain ⟨hc1, hsel, hocc⟩ := ih
    have hmodc : ((readerAfter ds z alwaysOk j).cur_id + 1)
        % ds.sizes.length = (j + 1) % ds.sizes.length := by
      rw [hc1, Nat.mod_add_mod]
    rcases Nat.mod_two_eq_zero_or_one j with h2 | h2
    · have hs0 : (readerAfter ds z alwaysOk j).data_selector = 0 := by
        rw [hsel, h2]
      obtain ⟨ha, hb, hc, _⟩ :=
        iterStep_state_sel0 ds z alwaysOk j (readerAfter ds z alwaysOk j)
          hs0 rfl
      have hm1 : (j + 1) % 2 = 1 := by omega
      refine ⟨?_, ?_, ?_⟩
      · show (iterStep ds z alwaysOk j (readerAfter ds z alwaysOk j)).1.cur_id
            = (j + 1) % ds.sizes.length
        rw [ha, hmodc]
      · show (iterStep ds z alwaysOk j
            (readerAfter ds z alwaysOk j)).1.data_selector = (j + 1) % 2
        rw [hb, hm1]
      · rw [show readerAfter ds z alwaysOk (j + 1)
            = (iterStep ds z alwaysOk j (readerAfter ds z alwaysOk j)).1
            from rfl, hm1, if_neg (by omega), hc, hmodc]
    · have hs1 : (readerAfter ds z alwaysOk j).data_selector = 1 := by
        rw [hsel, h2]
      obtain ⟨ha, hb, hc, _⟩ :=
        iterStep_state_sel1 ds z alwaysOk j (readerAfter ds z alwaysOk j)
          hs1 rfl
      have hm0 : (j + 1) % 2 = 0 := by omega
      refine ⟨?_, ?_, ?_⟩
      · show (iterStep ds z alwaysOk j (readerAfter ds z alwaysOk j)).1.cur_id
            = (j + 1) % ds.sizes.length
        rw [ha, hmodc]
      · show (iterStep ds z alwaysOk j
            (readerAfter ds z alwaysOk j)).1.data_selector = (j + 1) % 2
        rw [hb, hm0]
      · rw [show readerAfter ds z alwaysOk (j + 1)
            = (iterStep ds z alwaysOk j (readerAfter ds z alwaysOk j)).1
            from rfl, hm0, if_pos rfl, hc, hmodc]

/-- Claim C7: the chunks whose contents the reader drains from the
active slot form the cyclic sequence 0, 1, ..., numChunks - 1, 0, 1, ...
starting at chunk 0 on the first drain after construction: the chunk
occupying the active slot at drain `j` is exactly `j % numChunks`, so no
chunk is skipped and no chunk repeats before every other chunk has been
visited once in the same cycle. -/
theorem reader_cyclic_visitation (ds : Dataset α) (z : α)
    (hN : 0 < ds.sizes.length) (j : Nat) :
    activeChunkAt ds z alwaysOk j = some (j % ds.sizes.length) := by
  obtain ⟨hc1, hsel, hocc⟩ := readerAfter_inv ds z j
  simp only [activeChunkAt]
  rcases Nat.mod_two_eq_zero_or_one j with h2 | h2
  · rw [h2, if_pos rfl] at hocc
    rw [show (readerAfter ds z alwaysOk j).data_selector = 0 from by
      rw [hsel, h2]]
    exact hocc
  · rw [h2, if_neg (by omega)] at hocc
    rw [show (readerAfter ds z alwaysOk j).data_selector = 1 from by
      rw [hsel, h2]]
    exact hocc

/-- A concrete dataset shaped like the writer output for `n = 10`,
`chunk_size = 4` (`chunk_sizes = [4, 4, 2]`), with pairwise distinct
samples: chunk 0 is `[0, 1, 2, 3]` with label 0, chunk 1 is
`[10, 11, 12, 13]` with label 1, chunk 2 is `[20, 21]` with label 2. -/
def cds : Dataset Nat :=
  { sizes := [4, 4, 2]
    chunkX := fun i => [[0, 1, 2, 3], [10, 11, 12, 13], [20, 21]].getD i []
    chunkY := fun i => [[0, 0, 0, 0], [1, 1, 1, 1], [2, 2]].getD i [] }

theorem reader_cyclic_visitation_witness :
    0 < cds.sizes.length ∧ activeChunkAt cds 99 alwaysOk 5 = some 2 :=
  ⟨by decide, reader_cyclic_visitation cds 99 (by decide) 5⟩

/-- Claim C1 fails on the code: the drain loop at lines 289 and 290 is
bounded by `chunk_sizes[self.cur_id]` after the `_next_file` generator
has already advanced `cur_id`, i.e. by the size of the chunk being
prefetched, not by the size of the chunk held by the active slot. With
`chunk_sizes = [4, 4, 2]`, drain 2 reads the active slot, which holds
the 2-sample chunk 2, with bound `chunk_sizes[0] = 4`: it yields the
sample indices 2 and 3 of the slot, which still hold the stale samples
2 and 3 of chunk 0, the previous occupant of that slot. -/
theorem reader_drain_overrun :
    activeChunkAt cds 99 alwaysOk 2 = some 2 ∧
    cds.sizes.getD 2 0 = 2 ∧
    (drainAt cds 99 alwaysOk 2).length = 4 ∧
    (drainAt cds 99 alwaysOk 2).map Prod.fst = [20, 21, 2, 3] ∧
    cds.chunkX 2 = [20, 21] := by
  decide

/-- Claim C2 fails on the code for the same off-by-one reason: with
`chunk_sizes = [4, 4, 2]`, drain 1 holds chunk 1 (declared valid length
4) but is bounded by `chunk_sizes[2] = 2`, so only the two samples 10
and 11 of chunk 1 are ever yielded before drain 2 starts yielding chunk
2's sample 20. -/
theorem reader_premature_advance :
    cds.sizes.getD 1 0 = 4 ∧
    (drainAt cds 99 alwaysOk 1).map Prod.fst = [10, 11] ∧
    (drainAt cds 99 alwaysOk 2).map Prod.fst = [20, 21, 2, 3] ∧
    cds.chunkX 1 = [10, 11, 12, 13] := by
  decide

/-- A two-chunk dataset used to exercise a failing background load:
chunk 0 is `[1, 2]`, chunk 1 is `[3, 4]`, slots initially zero. -/
def fds : Dataset Nat :=
  { sizes := [2, 2]
    chunkX := fun i => [[1, 2], [3, 4]].getD i []
    chunkY := fun i => [[0, 0], [1, 1]].getD i [] }

/-- The background load launched during drain 0 (the load of chunk 1)
dies; every later load completes. -/
def failAt0 : Nat → Bool := fun j => j != 0

/-- Claim C3 fails on the code: `mp.Process.join` returns normally even
when the child raised, so a failed background load surfaces no error at
the chunk transition; the reader goes on to drain the slot the dead
child never wrote. With two chunks of size 2 and the load of chunk 1
failing, drain 1 yields the un-written slot contents `[0, 0]` (the
`torch.zeros` initial fill) instead of chunk 1's `[3, 4]`, and no
failure of any kind reaches the consumer. -/
theorem reader_silent_after_failed_load :
    (drainAt fds 0 failAt0 1).map Prod.fst = [0, 0] ∧
    (drainAt fds 0 failAt0 1).length = 2 ∧
    fds.chunkX 1 = [3, 4] ∧
    activeChunkAt fds 0 failAt0 1 = none := by
  decide

/-- Claim C6: encoding a chunk's data buffer and parallel label buffer
(the writer's per-chunk `.x.pt` and `.y.pt` records) and then decoding
them into a double-buffer slot prefix of length `chunkSizes[i]` (the
reader's slice assignment at lines 277 and 278) reproduces the data
buffer bit-for-bit and the label buffer value-for-value. -/
theorem chunk_roundtrip (sizes : List Nat) (i : Nat) (x slotX : List α)
    (y slotY : List Nat)
    (hx : x.length = sizes.getD i 0) (hy : y.length = sizes.getD i 0) :
    (sliceAssign slotX (encodeChunk x y).1 (sizes.getD i 0)).take
        (sizes.getD i 0) = x ∧
    (sliceAssign slotY (encodeChunk x y).2 (sizes.getD i 0)).take
        (sizes.getD i 0) = y := by
  constructor
  · show (x.take (sizes.getD i 0)
        ++ slotX.drop (sizes.getD i 0)).take (sizes.getD i 0) = x
    rw [← hx, List.take_length, List.take_left]
  · show (y.take (sizes.getD i 0)
        ++ slotY.drop (sizes.getD i 0)).take (sizes.getD i 0) = y
    rw [← hy, List.take_length, List.take_left]

theorem chunk_roundtrip_witness :
    ([3, 7].length = [4, 2].getD 1 0) ∧
    ([5, 6].length = [4, 2].getD 1 0) ∧
    ((sliceAssign [9, 9, 9, 9] (encodeChunk [3, 7] [5, 6]).1
        ([4, 2].getD 1 0)).take ([4, 2].getD 1 0) = [3, 7] ∧
      (sliceAssign [0, 0, 0, 0] (encodeChunk [3, 7] [5, 6]).2
        ([4, 2].getD 1 0)).take ([4, 2].getD 1 0) = [5, 6]) :=
  ⟨by decide, by decide,
    chunk_roundtrip [4, 2] 1 [3, 7] [9, 9, 9, 9] [5, 6] [0, 0, 0, 0]
      (by decide) (by decide)⟩

end PGM
